import Mathlib

/-!
Verification development for the BIPA Case 1 pricing core
(`src/Case1/BIPA_Case1.py`, Parts B and C).

The Python source works on IEEE floats; the shallow embedding works on `ℚ`
and abstracts the two transcendental library routines `np.log` and `np.exp`
as explicit function parameters `lg ex : ℚ → ℚ`.  All structural facts
(inventory accounting, revenue summation, which arguments reach `log`,
feature-row construction, sorting, constraint definitions) are independent
of the concrete values those routines return; the few places where a
property of the real exponential is needed (`0 ≤ exp x`) carry it as an
explicit hypothesis.  All definitions are computable so that theorems can
be instantiated on concrete inputs.
-/

namespace BIPA

/-- The additive smoothing constant `epsilon = 1e-9` (source line 93). -/
def epsilon : ℚ := 1 / 1000000000

/-! ## Part B: feature engineering (source lines 86-98) -/

/-- One weekly observation row of the input series
(`year_no`, `week_no`, `sales_units`, `discount_per`, `promo_week_flg`). -/
structure Obs where
  year_no : ℤ
  week_no : ℤ
  sales_units : ℚ
  discount_per : ℚ
  promo_week_flg : ℚ
  deriving DecidableEq, Repr

/-- The sort key ordering used by `sort_values(['year_no', 'week_no'])`
(source line 87): lexicographic on (year, week). -/
def keyLe (a b : Obs) : Prop :=
  a.year_no < b.year_no ∨ (a.year_no = b.year_no ∧ a.week_no ≤ b.week_no)

instance : DecidableRel keyLe := fun a b => by
  unfold keyLe; infer_instance

instance : IsTotal Obs keyLe := by
  constructor
  intro a b
  rcases lt_trichotomy a.year_no b.year_no with h | h | h
  · exact Or.inl (Or.inl h)
  · rcases le_total a.week_no b.week_no with hw | hw
    · exact Or.inl (Or.inr ⟨h, hw⟩)
    · exact Or.inr (Or.inr ⟨h.symm, hw⟩)
  · exact Or.inr (Or.inl h)

instance : IsTrans Obs keyLe := by
  constructor
  intro a b c hab hbc
  rcases hab with h1 | ⟨e1, w1⟩
  · rcases hbc with h2 | ⟨e2, w2⟩
    · exact Or.inl (h1.trans h2)
    · exact Or.inl (e2 ▸ h1)
  · rcases hbc with h2 | ⟨e2, w2⟩
    · exact Or.inl (e1 ▸ h2)
    · exact Or.inr ⟨e1.trans e2, w1.trans w2⟩

/-- `df_ts_sorted = df_ts.sort_values(['year_no', 'week_no'])`
(source line 87): the series is sorted by (year, week), not validated. -/
def sortStage (l : List Obs) : List Obs :=
  List.insertionSort keyLe l

/-- One engineered feature row (source lines 94-98): the log-space columns
plus the promotion flag.  Rows whose lag columns would be undefined (the
first row of the series, whose `shift(1)` values are missing) do not occur. -/
structure FeatureRow where
  log_sales : ℚ
  log_lag_sales : ℚ
  log_disc : ℚ
  log_lag_disc : ℚ
  promo_flag : ℚ
  deriving DecidableEq, Repr

/-- The feature columns of source lines 94-98 together with the drop of the
rows whose `shift(1)` lag values are undefined (`dropna` on the lag columns,
source line 102): row `i ≥ 1` of the sorted series is paired with row
`i - 1`, and row 0 is dropped. `lg` abstracts `np.log`. -/
def featureRows (lg : ℚ → ℚ) (s : List Obs) : List FeatureRow :=
  List.zipWith
    (fun prev cur =>
      { log_sales := lg (cur.sales_units + epsilon)
        log_lag_sales := lg (prev.sales_units + epsilon)
        log_disc := lg (cur.discount_per + epsilon)
        log_lag_disc := lg (prev.discount_per + epsilon)
        promo_flag := cur.promo_week_flg })
    s s.tail

/-- The full Part B feature-building stage on a raw series: sort, then
build the lagged log features (source lines 87-102). -/
def featureStage (lg : ℚ → ℚ) (l : List Obs) : List FeatureRow :=
  featureRows lg (sortStage l)

/-- Every argument passed to `np.log` by the feature engineering of source
lines 94-97: `sales + ε` and `disc + ε` for each row (columns `log_sales`,
`log_disc`), and the same quantities for each row that serves as a lag
(every row but the last, columns `log_lag_sales`, `log_lag_disc`). -/
def featureLogArgs (s : List Obs) : List ℚ :=
  s.map (fun o => o.sales_units + epsilon)
    ++ s.dropLast.map (fun o => o.sales_units + epsilon)
    ++ s.map (fun o => o.discount_per + epsilon)
    ++ s.dropLast.map (fun o => o.discount_per + epsilon)

/-! ## Part C: demand simulator (source lines 128-180) -/

/-- The fitted elasticity coefficients consumed by the simulator, one per
regressor plus intercept (source lines 105, 137, 155-160). -/
structure Coef where
  const : ℚ
  log_lag_sales : ℚ
  log_disc : ℚ
  log_lag_disc : ℚ
  promo_flag : ℚ
  age : ℚ
  deriving DecidableEq, Repr

/-- The scalar business inputs of source lines 130-134. -/
structure Params where
  inv_start : ℚ
  age_start : ℚ
  prev_disc : ℚ
  prev_sale : ℚ
  mrp : ℚ
  deriving DecidableEq, Repr

/-- The literal case inputs (source lines 130-134). -/
def caseParams : Params :=
  { inv_start := 2476, age_start := 96, prev_disc := 579 / 1000
    prev_sale := 48, mrp := 606 }

/-- The mutable loop state of `objective_function`
(source lines 142-147, 169-174). -/
structure SimState where
  total_revenue : ℚ
  current_inventory : ℚ
  log_lag_sales : ℚ
  log_lag_discount : ℚ
  deriving DecidableEq, Repr

/-- State before the first EOSS week (source lines 142-147): zero revenue,
starting inventory, lag state seeded with `log(prev_sale)` and
`log(prev_disc)` — no epsilon here. -/
def initState (lg : ℚ → ℚ) (p : Params) : SimState :=
  { total_revenue := 0
    current_inventory := p.inv_start
    log_lag_sales := lg p.prev_sale
    log_lag_discount := lg p.prev_disc }

/-- The predicted log sales of week `i` from state `s`
(source lines 151-160): the log-log model equation with `age_start + i + 1`,
promo flag 1, and `log(discount[i])` taken with no epsilon. -/
def predLogSales (lg : ℚ → ℚ) (c : Coef) (p : Params) (d : ℕ → ℚ)
    (i : ℕ) (s : SimState) : ℚ :=
  c.const + c.log_lag_sales * s.log_lag_sales
    + c.log_disc * lg (d i)
    + c.log_lag_disc * s.log_lag_discount
    + c.promo_flag * 1
    + c.age * (p.age_start + (i : ℚ) + 1)

/-- One iteration of the week loop of `objective_function`
(source lines 149-174): predict, cap by inventory, accrue revenue, update
inventory and lag state. -/
def weekStep (lg ex : ℚ → ℚ) (c : Coef) (p : Params) (d : ℕ → ℚ)
    (i : ℕ) (s : SimState) : SimState :=
  let predicted_sales := ex (predLogSales lg c p d i s)
  let actual_sales := min predicted_sales s.current_inventory
  let weekly_revenue := actual_sales * p.mrp * (1 - d i)
  { total_revenue := s.total_revenue + weekly_revenue
    current_inventory := s.current_inventory - actual_sales
    log_lag_sales := lg (actual_sales + epsilon)
    log_lag_discount := lg (d i) }

/-- The state after the first `n` iterations of the week loop
(source lines 149-174); the full run takes `n = 4`. -/
def runWeeks (lg ex : ℚ → ℚ) (c : Coef) (p : Params) (d : ℕ → ℚ) :
    ℕ → SimState
  | 0 => initState lg p
  | n + 1 => weekStep lg ex c p d n (runWeeks lg ex c p d n)

/-- The predicted sales computed inside week `i` of the run
(source line 162). -/
def predictedAt (lg ex : ℚ → ℚ) (c : Coef) (p : Params) (d : ℕ → ℚ)
    (i : ℕ) : ℚ :=
  ex (predLogSales lg c p d i (runWeeks lg ex c p d i))

/-- The inventory-capped actual sales of week `i` (source line 165). -/
def actualAt (lg ex : ℚ → ℚ) (c : Coef) (p : Params) (d : ℕ → ℚ)
    (i : ℕ) : ℚ :=
  min (predictedAt lg ex c p d i) (runWeeks lg ex c p d i).current_inventory

/-- The residual liquidation revenue added after the horizon
(source line 177): leftover inventory sold at a flat 60% discount. -/
def residualRevenue (lg ex : ℚ → ℚ) (c : Coef) (p : Params) (d : ℕ → ℚ) : ℚ :=
  (runWeeks lg ex c p d 4).current_inventory * p.mrp * (1 - 60 / 100)

/-- Total revenue of a simulator run: the four accrued weekly revenues plus
the residual liquidation revenue (source lines 169, 177-178). -/
def totalRevenue (lg ex : ℚ → ℚ) (c : Coef) (p : Params) (d : ℕ → ℚ) : ℚ :=
  (runWeeks lg ex c p d 4).total_revenue + residualRevenue lg ex c p d

/-- `objective_function` (source lines 140-180): the negated total revenue,
as fed to the minimizer. -/
def objective_function (lg ex : ℚ → ℚ) (c : Coef) (p : Params)
    (d : ℕ → ℚ) : ℚ :=
  -(totalRevenue lg ex c p d)

/-- Every argument passed to `np.log` during one simulator run, in source
order: `prev_sale` (line 146), `prev_disc` (line 147), then per week
`discount[i]` (line 157), `actual_sales + epsilon` (line 173) and
`discount[i]` again (line 174). -/
def simLogArgs (lg ex : ℚ → ℚ) (c : Coef) (p : Params) (d : ℕ → ℚ) :
    List ℚ :=
  p.prev_sale :: p.prev_disc ::
    ((List.range 4).map
      (fun i => [d i, actualAt lg ex c p d i + epsilon, d i])).flatten

/-! ## Part C: optimizer search space (source lines 182-197) -/

/-- `bounds` (source line 184): four box constraints, each week's discount
in [0.10, 0.60]. -/
def bounds : List (ℚ × ℚ) :=
  List.replicate 4 (1 / 10, 6 / 10)

/-- The three inequality constraint functions of source lines 187-191:
each must be `≥ 0` at a feasible point. -/
def constraintFuns : List ((ℕ → ℚ) → ℚ) :=
  [fun d => d 1 - d 0, fun d => d 2 - d 1, fun d => d 3 - d 2]

/-- `initial_guess = [0.1, 0.2, 0.3, 0.4]` (source line 194). -/
def initial_guess : List ℚ :=
  [1 / 10, 2 / 10, 3 / 10, 4 / 10]

/-- View of a finite discount list as the index function the simulator
reads (`discounts[i]`, source line 150). -/
def vecOf (l : List ℚ) : ℕ → ℚ :=
  fun i => l.getD i 0

/-- `d` lies inside every box of `bounds`, relaxed by `tol`. -/
def inBounds (tol : ℚ) (d : ℕ → ℚ) : Prop :=
  ∀ i, (h : i < bounds.length) →
    (bounds.get ⟨i, h⟩).1 - tol ≤ d i ∧ d i ≤ (bounds.get ⟨i, h⟩).2 + tol

/-- Every inequality constraint of `constraintFuns` holds at `d`, relaxed
by `tol`. -/
def meetsIneqs (tol : ℚ) (d : ℕ → ℚ) : Prop :=
  ∀ g ∈ constraintFuns, -tol ≤ g d

/-- Feasibility within numerical tolerance `tol`. -/
def feasibleWithin (tol : ℚ) (d : ℕ → ℚ) : Prop :=
  inBounds tol d ∧ meetsIneqs tol d

/-- Result record of the numerical minimizer (source lines 197-202):
a success flag and the returned point. -/
structure MinimizeResult where
  success : Bool
  x : ℕ → ℚ

/-- Modelled from the spec: `scipy.optimize.minimize(objective_function,
initial_guess, method='SLSQP', bounds=bounds, constraints=constraints)`
(source line 197) is an external library routine whose implementation is
not part of this repository.  Per the spec (§4.4 and §8, "Optimizer
feasibility" and "Optimizer improvement"), a result reported as success
satisfies all bounds and all inequality constraints within a small
numerical tolerance and its objective value does not exceed the objective
at the supplied initial guess. -/
def SLSQPContract (f : (ℕ → ℚ) → ℚ) (x0 : ℕ → ℚ) (tol : ℚ)
    (r : MinimizeResult) : Prop :=
  r.success = true → feasibleWithin tol r.x ∧ f r.x ≤ f x0

/-! ## Claim-side description of the simulator (spec §4.3)

These definitions transcribe the algorithm as the specification states it:
per-week predicted sales, inventory-capped actual sales, weekly revenue,
and the lag-state recurrence, with the residual liquidation applied once
after the horizon.  They are compared with the source-side `runWeeks` /
`totalRevenue` by refinement. -/

/-- The spec-side state recurrence: `(remaining_inventory, log_lag_sales,
log_lag_discount)` before week `i`.  Week `i` predicts
`exp(intercept + β_lag_sales·log_lag_sales + β_log_discount·log(d i)
+ β_lag_discount·log_lag_discount + β_promo·1 + β_age·age(i))` with
`age(i) = age_start + i + 1`, caps it by the remaining inventory, and
updates `remaining −= actual`, `log_lag_sales = log(actual + ε)`,
`log_lag_discount = log(d i)`. -/
def specTriple (lg ex : ℚ → ℚ) (c : Coef) (p : Params) (d : ℕ → ℚ) :
    ℕ → ℚ × ℚ × ℚ
  | 0 => (p.inv_start, lg p.prev_sale, lg p.prev_disc)
  | i + 1 =>
    let t := specTriple lg ex c p d i
    let pred := ex (c.const + c.log_lag_sales * t.2.1
      + c.log_disc * lg (d i) + c.log_lag_disc * t.2.2
      + c.promo_flag * 1 + c.age * (p.age_start + (i : ℚ) + 1))
    let act := min pred t.1
    (t.1 - act, lg (act + epsilon), lg (d i))

/-- Spec-side remaining inventory before week `i`. -/
def specInv (lg ex : ℚ → ℚ) (c : Coef) (p : Params) (d : ℕ → ℚ)
    (i : ℕ) : ℚ :=
  (specTriple lg ex c p d i).1

/-- Spec-side predicted sales of week `i`. -/
def specPredicted (lg ex : ℚ → ℚ) (c : Coef) (p : Params) (d : ℕ → ℚ)
    (i : ℕ) : ℚ :=
  ex (c.const + c.log_lag_sales * (specTriple lg ex c p d i).2.1
    + c.log_disc * lg (d i)
    + c.log_lag_disc * (specTriple lg ex c p d i).2.2
    + c.promo_flag * 1 + c.age * (p.age_start + (i : ℚ) + 1))

/-- Spec-side inventory-capped actual sales of week `i`. -/
def specActual (lg ex : ℚ → ℚ) (c : Coef) (p : Params) (d : ℕ → ℚ)
    (i : ℕ) : ℚ :=
  min (specPredicted lg ex c p d i) (specInv lg ex c p d i)

/-- Spec-side weekly revenue: `actual_sales × price × (1 − discount[i])`. -/
def specWeeklyRevenue (lg ex : ℚ → ℚ) (c : Coef) (p : Params) (d : ℕ → ℚ)
    (i : ℕ) : ℚ :=
  specActual lg ex c p d i * p.mrp * (1 - d i)

/-! ## Helper lemmas on the week step -/

/-- The week step never drives inventory negative: the capped sales never
exceed the inventory they are subtracted from. -/
lemma weekStep_inventory_nonneg (lg ex : ℚ → ℚ) (c : Coef) (p : Params)
    (d : ℕ → ℚ) (i : ℕ) (s : SimState) :
    0 ≤ (weekStep lg ex c p d i s).current_inventory := by
  have hmin : min (ex (predLogSales lg c p d i s)) s.current_inventory
      ≤ s.current_inventory := min_le_right _ _
  simp only [weekStep]
  linarith

/-- Inventory stays nonnegative through every week of the run. -/
lemma runWeeks_inventory_nonneg (lg ex : ℚ → ℚ) (c : Coef) (p : Params)
    (d : ℕ → ℚ) (h : 0 ≤ p.inv_start) :
    ∀ i, 0 ≤ (runWeeks lg ex c p d i).current_inventory
  | 0 => by simpa [runWeeks, initState] using h
  | i + 1 => weekStep_inventory_nonneg lg ex c p d i _

/-- If predictions are nonnegative (as `np.exp` is) and inventory is
nonnegative, the week step does not increase inventory. -/
lemma weekStep_inventory_le (lg ex : ℚ → ℚ) (c : Coef) (p : Params)
    (d : ℕ → ℚ) (i : ℕ) (s : SimState) (hex : ∀ x, 0 ≤ ex x)
    (h : 0 ≤ s.current_inventory) :
    (weekStep lg ex c p d i s).current_inventory ≤ s.current_inventory := by
  have hmin : 0 ≤ min (ex (predLogSales lg c p d i s)) s.current_inventory :=
    le_min (hex _) h
  simp only [weekStep]
  linarith

/-- Zero inventory is absorbing for the week step when predictions are
nonnegative. -/
lemma weekStep_inventory_zero (lg ex : ℚ → ℚ) (c : Coef) (p : Params)
    (d : ℕ → ℚ) (i : ℕ) (s : SimState) (hex : ∀ x, 0 ≤ ex x)
    (h : s.current_inventory = 0) :
    (weekStep lg ex c p d i s).current_inventory = 0 := by
  simp only [weekStep, h]
  rw [min_eq_right (hex _)]
  ring

/-- A coefficient vector used only to instantiate theorems concretely. -/
def zeroCoef : Coef := ⟨0, 0, 0, 0, 0, 0⟩

/-! ## C2: monotone nonnegative inventory -/

/-- C2: for every candidate discount vector and every starting inventory
≥ 0, the remaining inventory maintained by the simulator is ≥ 0 after each
of the 4 weeks and is non-increasing from week to week (`np.exp` being
nonnegative is taken as the hypothesis `hex`). -/
theorem simulator_inventory_monotone (lg ex : ℚ → ℚ) (c : Coef)
    (p : Params) (d : ℕ → ℚ) (hinv : 0 ≤ p.inv_start)
    (hex : ∀ x, 0 ≤ ex x) :
    (∀ i, i ≤ 4 → 0 ≤ (runWeeks lg ex c p d i).current_inventory) ∧
    (∀ i, i < 4 → (runWeeks lg ex c p d (i + 1)).current_inventory
      ≤ (runWeeks lg ex c p d i).current_inventory) := by
  constructor
  · intro i _
    exact runWeeks_inventory_nonneg lg ex c p d hinv i
  · intro i _
    exact weekStep_inventory_le lg ex c p d i _ hex
      (runWeeks_inventory_nonneg lg ex c p d hinv i)

/-- Concrete instantiation of C2: with the case parameters, a constant
prediction of 1 and the flat discount vector 0.10, the final inventory is
nonnegative and week 4 does not increase it. -/
theorem simulator_inventory_monotone_witness :
    0 ≤ (runWeeks id (fun _ => 1) zeroCoef caseParams
      (fun _ => 1 / 10) 4).current_inventory ∧
    (runWeeks id (fun _ => 1) zeroCoef caseParams
      (fun _ => 1 / 10) 4).current_inventory
      ≤ (runWeeks id (fun _ => 1) zeroCoef caseParams
        (fun _ => 1 / 10) 3).current_inventory :=
  ⟨(simulator_inventory_monotone id (fun _ => 1) zeroCoef caseParams
      (fun _ => 1 / 10) (by decide) (fun _ => by norm_num)).1 4 (le_refl 4),
   (simulator_inventory_monotone id (fun _ => 1) zeroCoef caseParams
      (fun _ => 1 / 10) (by decide) (fun _ => by norm_num)).2 3 (by decide)⟩

/-! ## C3: saturation -/

/-- C3: if the predicted sales of week `i` exceed the remaining inventory,
the actual sales of week `i` equal that remaining inventory exactly, and
every later week starts with zero inventory and sells zero (`np.exp` being
nonnegative is the hypothesis `hex`). -/
theorem simulator_saturation (lg ex : ℚ → ℚ) (c : Coef) (p : Params)
    (d : ℕ → ℚ) (i : ℕ) (hex : ∀ x, 0 ≤ ex x)
    (hsat : (runWeeks lg ex c p d i).current_inventory
      < predictedAt lg ex c p d i) :
    actualAt lg ex c p d i = (runWeeks lg ex c p d i).current_inventory ∧
    ∀ j, i < j → (runWeeks lg ex c p d j).current_inventory = 0 ∧
      actualAt lg ex c p d j = 0 := by
  have hact : actualAt lg ex c p d i
      = (runWeeks lg ex c p d i).current_inventory :=
    min_eq_right (le_of_lt hsat)
  have hzero : ∀ j, i < j → (runWeeks lg ex c p d j).current_inventory = 0 := by
    intro j hij
    induction j with
    | zero => omega
    | succ k ih =>
      rcases Nat.lt_or_ge i k with hk | hk
      · exact weekStep_inventory_zero lg ex c p d k _ hex (ih hk)
      · have hik : i = k := by omega
        subst hik
        show (weekStep lg ex c p d i (runWeeks lg ex c p d i)).current_inventory = 0
        simp only [weekStep]
        have : min (ex (predLogSales lg c p d i (runWeeks lg ex c p d i)))
            (runWeeks lg ex c p d i).current_inventory
            = (runWeeks lg ex c p d i).current_inventory :=
          min_eq_right (le_of_lt hsat)
        rw [this]
        ring
  refine ⟨hact, fun j hij => ⟨hzero j hij, ?_⟩⟩
  have h0 := hzero j hij
  unfold actualAt
  rw [h0]
  exact min_eq_right (hex _)

/-- Concrete instantiation of C3: with starting inventory 1 and constant
prediction 5, week 0 saturates (sells exactly the inventory 1) and weeks 1
and 2 hold zero inventory. -/
theorem simulator_saturation_witness :
    actualAt id (fun _ => 5) zeroCoef ⟨1, 0, 1, 1, 1⟩ (fun _ => 1 / 10) 0
      = (runWeeks id (fun _ => 5) zeroCoef ⟨1, 0, 1, 1, 1⟩
        (fun _ => 1 / 10) 0).current_inventory ∧
    (runWeeks id (fun _ => 5) zeroCoef ⟨1, 0, 1, 1, 1⟩
      (fun _ => 1 / 10) 2).current_inventory = 0 :=
  ⟨(simulator_saturation id (fun _ => 5) zeroCoef ⟨1, 0, 1, 1, 1⟩
      (fun _ => 1 / 10) 0 (fun _ => by norm_num) (by decide)).1,
   ((simulator_saturation id (fun _ => 5) zeroCoef ⟨1, 0, 1, 1, 1⟩
      (fun _ => 1 / 10) 0 (fun _ => by norm_num) (by decide)).2 2
        (by decide)).1⟩

/-! ## C1: the simulator computes the specified recurrence and total -/

/-- Refinement: after `i` loop iterations the source-side state carries
exactly the spec-side inventory and lag values, and its accrued revenue is
the sum of the first `i` spec-side weekly revenues. -/
lemma runWeeks_eq_spec (lg ex : ℚ → ℚ) (c : Coef) (p : Params)
    (d : ℕ → ℚ) : ∀ i, runWeeks lg ex c p d i =
      { total_revenue := ∑ j ∈ Finset.range i, specWeeklyRevenue lg ex c p d j
        current_inventory := specInv lg ex c p d i
        log_lag_sales := (specTriple lg ex c p d i).2.1
        log_lag_discount := (specTriple lg ex c p d i).2.2 }
  | 0 => by
    simp [runWeeks, initState, specInv, specTriple]
  | i + 1 => by
    have ih := runWeeks_eq_spec lg ex c p d i
    have hpred : ex (predLogSales lg c p d i (runWeeks lg ex c p d i))
        = specPredicted lg ex c p d i := by
      rw [ih]
      simp [predLogSales, specPredicted]
    show weekStep lg ex c p d i (runWeeks lg ex c p d i) = _
    simp only [weekStep, hpred]
    rw [ih]
    refine SimState.mk.injEq .. ▸ ⟨?_, ?_, ?_, ?_⟩ <;>
      simp [specInv, specActual, specWeeklyRevenue, Finset.sum_range_succ,
        specTriple, specPredicted]
  termination_by i => i

/-- C1: the simulator processes the 4 weeks strictly in order through the
specified recurrence — predicted log sales from the log-log equation,
`actual = min(predicted, remaining)`, `weekly_revenue = actual · price ·
(1 − d i)`, inventory and lag-state update — and the total revenue it
returns is the sum of the 4 weekly revenues plus the residual liquidation
revenue `remaining · price · (1 − 0.60)`, added exactly once. -/
theorem simulator_recurrence_and_total (lg ex : ℚ → ℚ) (c : Coef)
    (p : Params) (d : ℕ → ℚ) :
    (∀ i, i < 4 →
      predictedAt lg ex c p d i = specPredicted lg ex c p d i ∧
      actualAt lg ex c p d i
        = min (specPredicted lg ex c p d i) (specInv lg ex c p d i) ∧
      (runWeeks lg ex c p d (i + 1)).current_inventory
        = specInv lg ex c p d i - specActual lg ex c p d i ∧
      (runWeeks lg ex c p d (i + 1)).total_revenue
        = (runWeeks lg ex c p d i).total_revenue
          + specActual lg ex c p d i * p.mrp * (1 - d i)) ∧
    totalRevenue lg ex c p d
      = (∑ i ∈ Finset.range 4, specWeeklyRevenue lg ex c p d i)
        + specInv lg ex c p d 4 * p.mrp * (1 - 60 / 100) := by
  have key := runWeeks_eq_spec lg ex c p d
  have hpred : ∀ i, predictedAt lg ex c p d i = specPredicted lg ex c p d i := by
    intro i
    unfold predictedAt
    rw [key i]
    simp [predLogSales, specPredicted]
  constructor
  · intro i _
    refine ⟨hpred i, ?_, ?_, ?_⟩
    · unfold actualAt
      rw [hpred i, key i]
    · rw [key (i + 1)]
      simp [specInv, specTriple, specActual, specPredicted]
    · rw [key (i + 1), key i]
      simp [specWeeklyRevenue, Finset.sum_range_succ]
  · unfold totalRevenue residualRevenue
    rw [key 4]

/-- Concrete instantiation of C1: with a constant prediction of 2 and the
case parameters, the total revenue equals the spec-side weekly sum plus the
residual liquidation term. -/
theorem simulator_recurrence_and_total_witness :
    actualAt id (fun _ => 2) zeroCoef caseParams (fun _ => 1 / 2) 0
      = min (specPredicted id (fun _ => 2) zeroCoef caseParams
          (fun _ => 1 / 2) 0)
        (specInv id (fun _ => 2) zeroCoef caseParams (fun _ => 1 / 2) 0) ∧
    totalRevenue id (fun _ => 2) zeroCoef caseParams (fun _ => 1 / 2)
      = (∑ i ∈ Finset.range 4,
          specWeeklyRevenue id (fun _ => 2) zeroCoef caseParams
            (fun _ => 1 / 2) i)
        + specInv id (fun _ => 2) zeroCoef caseParams (fun _ => 1 / 2) 4
          * caseParams.mrp * (1 - 60 / 100) :=
  ⟨((simulator_recurrence_and_total id (fun _ => 2) zeroCoef caseParams
      (fun _ => 1 / 2)).1 0 (by decide)).2.1,
   (simulator_recurrence_and_total id (fun _ => 2) zeroCoef caseParams
     (fun _ => 1 / 2)).2⟩

/-! ## C4: optimizer search space, initial guess, feasible result -/

/-- The initial guess [0.1, 0.2, 0.3, 0.4] is feasible with zero
tolerance: inside every box and non-decreasing week over week. -/
lemma initial_guess_feasible : feasibleWithin 0 (vecOf initial_guess) := by
  constructor
  · intro i h
    simp only [bounds, List.length_replicate] at h
    interval_cases i <;>
      simp only [bounds, List.get_eq_getElem, List.getElem_replicate] <;>
        norm_num [vecOf, initial_guess]
  · intro g hg
    fin_cases hg <;> simp [vecOf, initial_guess] <;> norm_num

/-- Relaxing the tolerance preserves feasibility. -/
lemma feasibleWithin_mono {t u : ℚ} {d : ℕ → ℚ} (htu : t ≤ u)
    (h : feasibleWithin t d) : feasibleWithin u d := by
  refine ⟨fun i hi => ?_, fun g hg => ?_⟩
  · obtain ⟨h1, h2⟩ := h.1 i hi
    constructor <;> linarith
  · have := h.2 g hg
    linarith

/-- C4: the search space is 4 box constraints [0.10, 0.60] and 3 adjacent
non-decreasing inequality constraints; the initial guess [0.1, 0.2, 0.3,
0.4] satisfies both exactly; and under the modelled SLSQP contract any
vector returned on success is feasible within the numerical tolerance. -/
theorem optimizer_search_space (lg ex : ℚ → ℚ) (c : Coef) (p : Params) :
    bounds.length = 4 ∧
    (∀ b ∈ bounds, b = (1 / 10, 6 / 10)) ∧
    constraintFuns.length = 3 ∧
    (∀ d : ℕ → ℚ, constraintFuns.map (fun g => g d)
      = [d 1 - d 0, d 2 - d 1, d 3 - d 2]) ∧
    feasibleWithin 0 (vecOf initial_guess) ∧
    (∀ tol (r : MinimizeResult),
      SLSQPContract (objective_function lg ex c p) (vecOf initial_guess)
        tol r →
      r.success = true → feasibleWithin tol r.x) := by
  refine ⟨rfl, ?_, rfl, fun d => rfl, initial_guess_feasible,
    fun tol r h hs => (h hs).1⟩
  intro b hb
  simpa [bounds] using hb

/-- Concrete instantiation of C4: a contract-satisfying success result at
tolerance 1e-6 is feasible within that tolerance. -/
theorem optimizer_search_space_witness :
    feasibleWithin (1 / 1000000) (vecOf initial_guess) :=
  (optimizer_search_space id (fun _ => 0) zeroCoef caseParams).2.2.2.2.2
    (1 / 1000000) ⟨true, vecOf initial_guess⟩
    (fun _ => ⟨feasibleWithin_mono (by norm_num) initial_guess_feasible,
      le_refl _⟩) rfl

/-! ## C5: the search never regresses below the initial guess -/

/-- C5: under the modelled SLSQP contract, a run that reports success
returns a vector whose simulated total revenue is at least the total
revenue at the supplied initial guess (the objective is negated revenue,
so a non-increasing objective is a non-decreasing revenue). -/
theorem optimizer_no_regression (lg ex : ℚ → ℚ) (c : Coef) (p : Params)
    (tol : ℚ) (r : MinimizeResult)
    (h : SLSQPContract (objective_function lg ex c p) (vecOf initial_guess)
      tol r)
    (hs : r.success = true) :
    totalRevenue lg ex c p (vecOf initial_guess)
      ≤ totalRevenue lg ex c p r.x := by
  have hle := (h hs).2
  unfold objective_function at hle
  linarith

/-- Concrete instantiation of C5: a contract-satisfying success result at
the initial guess itself does not regress. -/
theorem optimizer_no_regression_witness :
    totalRevenue id (fun _ => 0) zeroCoef caseParams (vecOf initial_guess)
      ≤ totalRevenue id (fun _ => 0) zeroCoef caseParams
        (vecOf initial_guess) :=
  optimizer_no_regression id (fun _ => 0) zeroCoef caseParams 0
    ⟨true, vecOf initial_guess⟩
    (fun _ => ⟨initial_guess_feasible, le_refl _⟩) rfl

/-! ## C6: shape of the feature set -/

/-- C6: on a time-ordered series of length L the Feature Builder yields
exactly L − 1 rows; each row's `log_lag_sales` equals the previous row's
`log_sales` (the first observation, whose lag fields are undefined, is
dropped); and a series with fewer than 2 elements yields the empty feature
set rather than an error. -/
theorem feature_builder_shape (lg : ℚ → ℚ) (s : List Obs) :
    (featureRows lg s).length = s.length - 1 ∧
    (∀ i, (h : i + 1 < (featureRows lg s).length) →
      ((featureRows lg s).get ⟨i + 1, h⟩).log_lag_sales
        = ((featureRows lg s).get ⟨i, Nat.lt_of_succ_lt h⟩).log_sales) ∧
    (s.length < 2 → featureRows lg s = []) := by
  refine ⟨?_, ?_, ?_⟩
  · simp only [featureRows, List.length_zipWith, List.length_tail]
    omega
  · intro i h
    simp only [featureRows, List.get_eq_getElem, List.getElem_zipWith,
      List.getElem_tail]
  · intro h
    rcases s with _ | ⟨a, t⟩
    · rfl
    · rcases t with _ | ⟨b, u⟩
      · rfl
      · exact absurd h (by simp)

/-- Concrete instantiation of C6: a three-observation series yields two
rows whose lag column chains to the previous row's `log_sales`, and a
one-observation series yields no rows. -/
theorem feature_builder_shape_witness :
    (featureRows id [⟨2014, 1, 5, 1 / 2, 1⟩, ⟨2014, 2, 7, 3 / 10, 1⟩,
        ⟨2014, 3, 2, 1 / 5, 0⟩]).length = 2 ∧
    ((featureRows id [⟨2014, 1, 5, 1 / 2, 1⟩, ⟨2014, 2, 7, 3 / 10, 1⟩,
        ⟨2014, 3, 2, 1 / 5, 0⟩]).get ⟨1, by simp [featureRows]⟩).log_lag_sales
      = ((featureRows id [⟨2014, 1, 5, 1 / 2, 1⟩, ⟨2014, 2, 7, 3 / 10, 1⟩,
        ⟨2014, 3, 2, 1 / 5, 0⟩]).get ⟨0, by simp [featureRows]⟩).log_sales ∧
    featureRows id [⟨2014, 1, 5, 1 / 2, 1⟩] = [] :=
  ⟨(feature_builder_shape id _).1,
   (feature_builder_shape id _).2.1 0 (by simp [featureRows]),
   (feature_builder_shape id _).2.2 (by simp)⟩

/-! ## C7: the epsilon shields every logarithm in the Feature Builder -/

/-- C7: the additive epsilon is applied to every sales and discount value
before `np.log`, lagged or not, so on any series with nonnegative sales
and discounts — in particular rows with `sales_units = 0` or
`discount_per = 0` — every argument reaching the logarithm is strictly
positive. -/
theorem feature_builder_epsilon_safety (s : List Obs)
    (hs : ∀ o ∈ s, 0 ≤ o.sales_units ∧ 0 ≤ o.discount_per) :
    ∀ a ∈ featureLogArgs s, 0 < a := by
  intro a ha
  have heps : (0 : ℚ) < epsilon := by norm_num [epsilon]
  simp only [featureLogArgs, List.mem_append, List.mem_map] at ha
  rcases ha with ((⟨o, ho, rfl⟩ | ⟨o, ho, rfl⟩) | ⟨o, ho, rfl⟩) | ⟨o, ho, rfl⟩
  · have := (hs o ho).1; linarith
  · have := (hs o ((List.dropLast_sublist s).subset ho)).1; linarith
  · have := (hs o ho).2; linarith
  · have := (hs o ((List.dropLast_sublist s).subset ho)).2; linarith

/-- Concrete instantiation of C7: on a series containing a week with zero
sales and zero discount, the argument `0 + ε` that reaches the logarithm
is strictly positive. -/
theorem feature_builder_epsilon_safety_witness :
    (0 : ℚ) < 0 + epsilon :=
  feature_builder_epsilon_safety
    [⟨2014, 1, 0, 0, 0⟩, ⟨2014, 2, 7, 3 / 10, 1⟩]
    (by intro o ho; fin_cases ho <;> exact ⟨by norm_num, by norm_num⟩)
    (0 + epsilon)
    (by simp [featureLogArgs])

/-! ## C9: malformed series are silently coerced, not rejected -/

/-- Counterexample to C9: on the non-monotonic two-week series
[(2014, w2), (2014, w1)] the Part B stage raises nothing — it silently
re-sorts the series (the sorted output differs from the input) and
continues, producing a feature row. -/
theorem pipeline_silently_resorts :
    sortStage [⟨2014, 2, 7, 0, 1⟩, ⟨2014, 1, 5, 0, 1⟩]
      = [⟨2014, 1, 5, 0, 1⟩, ⟨2014, 2, 7, 0, 1⟩] ∧
    sortStage [⟨2014, 2, 7, 0, 1⟩, ⟨2014, 1, 5, 0, 1⟩]
      ≠ [⟨2014, 2, 7, 0, 1⟩, ⟨2014, 1, 5, 0, 1⟩] ∧
    featureStage id [⟨2014, 2, 7, 0, 1⟩, ⟨2014, 1, 5, 0, 1⟩] ≠ [] := by
  refine ⟨?_, ?_, ?_⟩
  · simp [sortStage, List.insertionSort, List.orderedInsert, keyLe]
  · simp [sortStage, List.insertionSort, List.orderedInsert, keyLe]
  · simp [featureStage, sortStage, List.insertionSort, List.orderedInsert,
      keyLe, featureRows]

/-- C9 as amended: for every observation series — too few rows,
non-monotonic ordering or duplicate weeks included — the Part B stage
raises no error: it silently coerces the series to a (year, week)-sorted
permutation of the input (duplicates retained) and continues into feature
building, yielding `length − 1` rows (zero rows when the series is
shorter than 2). -/
theorem pipeline_coerces_rather_than_raises (lg : ℚ → ℚ) (l : List Obs) :
    List.Sorted keyLe (sortStage l) ∧
    (sortStage l).Perm l ∧
    (featureStage lg l).length = l.length - 1 := by
  refine ⟨List.sorted_insertionSort keyLe l,
    List.perm_insertionSort keyLe l, ?_⟩
  have hlen : (sortStage l).length = l.length :=
    (List.perm_insertionSort keyLe l).length_eq
  simp only [featureStage, featureRows, List.length_zipWith,
    List.length_tail, hlen]
  omega

/-! ## C10: the simulator takes logarithms without the epsilon -/

/-- C10: unlike the Feature Builder, the simulator seeds its lag state
with `log(prev_sale)` and `log(prev_disc)` and takes `log(discount[i])`
with no additive epsilon, so a zero previous sale, zero previous discount
or zero discount entry puts 0 among the arguments reaching `np.log`
(`log 0 = −∞`); while with `prev_sale > 0`, `prev_disc > 0` and every
discount entry strictly positive — as the optimizer's 0.10 lower bound
guarantees — every argument reaching `np.log` is strictly positive
(`np.exp` nonnegative and a nonnegative starting inventory are the
embedding-level hypotheses `hex`, `hinv`). -/
theorem simulator_log_arguments (lg ex : ℚ → ℚ) (c : Coef) (p : Params)
    (d : ℕ → ℚ) (hinv : 0 ≤ p.inv_start) (hex : ∀ x, 0 ≤ ex x) :
    ((p.prev_sale = 0 ∨ p.prev_disc = 0 ∨ ∃ i, i < 4 ∧ d i = 0) →
      (0 : ℚ) ∈ simLogArgs lg ex c p d) ∧
    ((0 < p.prev_sale ∧ 0 < p.prev_disc ∧ ∀ i, i < 4 → 0 < d i) →
      ∀ a ∈ simLogArgs lg ex c p d, 0 < a) := by
  constructor
  · intro h
    simp only [simLogArgs, List.mem_cons, List.mem_flatten, List.mem_map,
      List.mem_range]
    rcases h with h | h | ⟨i, hi, hdi⟩
    · exact Or.inl h.symm
    · exact Or.inr (Or.inl h.symm)
    · refine Or.inr (Or.inr ?_)
      refine ⟨[d i, actualAt lg ex c p d i + epsilon, d i],
        ⟨i, hi, rfl⟩, ?_⟩
      simp [hdi]
  · rintro ⟨h1, h2, h3⟩ a ha
    simp only [simLogArgs, List.mem_cons, List.mem_flatten, List.mem_map,
      List.mem_range] at ha
    have heps : (0 : ℚ) < epsilon := by norm_num [epsilon]
    rcases ha with rfl | rfl | ⟨w, ⟨i, hi, rfl⟩, hmem⟩
    · exact h1
    · exact h2
    · have hact : 0 ≤ actualAt lg ex c p d i :=
        le_min (hex _) (runWeeks_inventory_nonneg lg ex c p d hinv i)
      simp only [List.mem_cons, List.not_mem_nil, or_false] at hmem
      rcases hmem with rfl | rfl | rfl
      · exact h3 i hi
      · linarith
      · exact h3 i hi

/-- Concrete instantiation of C10: with a zero discount vector, 0 is among
the simulator's log arguments; with the all-ones inputs, the week-0 lag
argument `actual + ε` is strictly positive. -/
theorem simulator_log_arguments_witness :
    (0 : ℚ) ∈ simLogArgs id (fun _ => 1) zeroCoef ⟨1, 0, 1, 1, 1⟩
      (fun _ => 0) ∧
    0 < actualAt id (fun _ => 1) zeroCoef ⟨1, 0, 1, 1, 1⟩
      (fun _ => 1) 0 + epsilon :=
  ⟨(simulator_log_arguments id (fun _ => 1) zeroCoef ⟨1, 0, 1, 1, 1⟩
      (fun _ => 0) (by norm_num) (fun _ => by norm_num)).1
      (Or.inr (Or.inr ⟨0, by norm_num, rfl⟩)),
   (simulator_log_arguments id (fun _ => 1) zeroCoef ⟨1, 0, 1, 1, 1⟩
      (fun _ => 1) (by norm_num) (fun _ => by norm_num)).2
      ⟨by norm_num, by norm_num, fun i _ => by norm_num⟩ _
      (by simp only [simLogArgs, List.mem_cons, List.mem_flatten,
            List.mem_map, List.mem_range]
          exact Or.inr (Or.inr ⟨_, ⟨0, by norm_num, rfl⟩, by simp⟩))⟩
